import Mathlib

/- Shallow embedding of the Bac Bo pattern-tracker analytics core
   (src/bacbo-web-completo/src/components/ui/button.jsx): the outcome
   type, the statistics engine (computeStats), the signal evaluator,
   the bulk text parser (parseBulk) and the JSON import routine
   (importJson). -/

/-- Outcome category tag: Red, Blue or Tie (source: COLORS / ColorKey). -/
inductive ColorKey where
  | R
  | B
  | T
  deriving DecidableEq

/-- Result record: unique id, winner color, timestamp (source: type Result). -/
structure Result where
  id : String
  v : ColorKey
  ts : Int
  deriving DecidableEq

/-- Per-color natural-number counters, used for the longest-streak map and
the recent-window tally (source: Record with keys R, B, T). -/
structure Counts where
  R : Nat
  B : Nat
  T : Nat
  deriving DecidableEq

def Counts.get (m : Counts) : ColorKey → Nat
  | .R => m.R
  | .B => m.B
  | .T => m.T

def Counts.set (m : Counts) : ColorKey → Nat → Counts
  | .R, n => { m with R := n }
  | .B, n => { m with B := n }
  | .T, n => { m with T := n }

def Counts.inc (m : Counts) (c : ColorKey) : Counts :=
  m.set c (m.get c + 1)

/-- Histogram over run lengths 1..5 and six-or-more (source: dist buckets). -/
structure BucketCounts where
  b1 : Nat
  b2 : Nat
  b3 : Nat
  b4 : Nat
  b5 : Nat
  b6p : Nat
  deriving DecidableEq

/-- Increment the bucket corresponding to a run length (source: bucket
selection, run length capped into the six-or-more bucket). A run length of
zero never reaches this point in computeStats. -/
def BucketCounts.addRun (bc : BucketCounts) (runLen : Nat) : BucketCounts :=
  if 6 ≤ runLen then { bc with b6p := bc.b6p + 1 }
  else match runLen with
    | 5 => { bc with b5 := bc.b5 + 1 }
    | 4 => { bc with b4 := bc.b4 + 1 }
    | 3 => { bc with b3 := bc.b3 + 1 }
    | 2 => { bc with b2 := bc.b2 + 1 }
    | 1 => { bc with b1 := bc.b1 + 1 }
    | _ => bc

/-- Streak distribution for Red and Blue (source: dist in computeStats). -/
structure StreakDist where
  R : BucketCounts
  B : BucketCounts
  deriving DecidableEq

/-- Flush a finished run into the distribution; only Red and Blue runs are
recorded (source: the runColor guard in the dist scan). -/
def StreakDist.flush (d : StreakDist) (rc : Option ColorKey) (rl : Nat) : StreakDist :=
  match rc with
  | some .R => { d with R := d.R.addRun rl }
  | some .B => { d with B := d.B.addRun rl }
  | _ => d

/-- Alternation scan (source: the alternations loop in computeStats):
Ties are skipped entirely; a non-Tie value differing from the last seen
non-Tie value increments the count. -/
def altLoop : List ColorKey → Option ColorKey → Nat → Nat
  | [], _, alternations => alternations
  | v :: rest, lastColor, alternations =>
    if v = ColorKey.T then altLoop rest lastColor alternations
    else
      match lastColor with
      | some c =>
        if v ≠ c then altLoop rest (some v) (alternations + 1)
        else altLoop rest (some v) alternations
      | none => altLoop rest (some v) alternations

/-- Current-streak scan (source: the right-to-left loop in computeStats);
the argument list is the reversed value sequence, a Tie stops the scan
immediately, a color change stops it as well. -/
def currentLoop : List ColorKey → Nat → Option ColorKey → Nat × Option ColorKey
  | [], streak, color => (streak, color)
  | v :: rest, streak, color =>
    if v = ColorKey.T then (streak, color)
    else
      match color with
      | none => currentLoop rest 1 (some v)
      | some c =>
        if v = c then currentLoop rest (streak + 1) (some c)
        else (streak, some c)

/-- Flush a finished run into the longest-streak map (source: the max
update in the longest loop of computeStats). -/
def longestFlush (m : Counts) (rc : Option ColorKey) (rl : Nat) : Counts :=
  match rc with
  | some c => m.set c (max (m.get c) rl)
  | none => m

/-- Longest-streak scan over the full value sequence, Tie runs included
(source: the longest loop in computeStats plus its final flush). -/
def longestLoop : List ColorKey → Option ColorKey → Nat → Counts → Counts
  | [], rc, rl, m => longestFlush m rc rl
  | v :: rest, rc, rl, m =>
    if rc = some v then longestLoop rest rc (rl + 1) m
    else longestLoop rest (some v) 1 (longestFlush m rc rl)

/-- Streak-distribution scan (source: the dist loop in computeStats plus
its final flush): a Tie flushes and clears the running run; a color change
flushes and starts a fresh run. -/
def distLoop : List ColorKey → Option ColorKey → Nat → StreakDist → StreakDist
  | [], rc, rl, d => d.flush rc rl
  | v :: rest, rc, rl, d =>
    if v = ColorKey.T then distLoop rest none 0 (d.flush rc rl)
    else if rc = some v then distLoop rest rc (rl + 1) d
    else distLoop rest (some v) 1 (d.flush rc rl)

/-- Tally of values in a window (source: the count20 forEach). -/
def countColors (l : List ColorKey) : Counts :=
  l.foldl (fun m v => m.inc v) ⟨0, 0, 0⟩

/-- Zebra scan (source: the zebra loop in computeStats): a Tie flushes the
running alternation length and clears the state; a non-Tie value extends
the run when it differs from the previous non-Tie value and otherwise
starts a fresh run of length one; the maximum is updated at every step. -/
def zebraLoop : List ColorKey → Option ColorKey → Nat → Nat → Nat
  | [], _, _, zebraMax => zebraMax
  | v :: rest, lastColor, zebraCur, zebraMax =>
    if v = ColorKey.T then zebraLoop rest none 0 (max zebraMax zebraCur)
    else
      let zebraCur' :=
        match lastColor with
        | some c => if v ≠ c then zebraCur + 1 else 1
        | none => 1
      zebraLoop rest (some v) zebraCur' (max zebraMax zebraCur')

/-- Derived statistics snapshot (source: the return value of computeStats). -/
structure Stats where
  total : Nat
  alternations : Nat
  currentStreak : Nat
  currentColor : Option ColorKey
  longest : Counts
  dist : StreakDist
  last20 : Counts
  zebraMax : Nat
  deriving DecidableEq

/-- Statistics engine (source: computeStats): derives every metric from the
ordered history in independent passes over the value sequence. The recent
window takes the last twenty records, or the whole history when shorter. -/
def computeStats (history : List Result) : Stats :=
  let seq := history.map Result.v
  let cur := currentLoop seq.reverse 0 none
  { total := history.length
    alternations := altLoop seq none 0
    currentStreak := cur.1
    currentColor := cur.2
    longest := longestLoop seq none 0 ⟨0, 0, 0⟩
    dist := distLoop seq none 0 ⟨⟨0, 0, 0, 0, 0, 0⟩, ⟨0, 0, 0, 0, 0, 0⟩⟩
    last20 := countColors ((history.drop (history.length - 20)).map Result.v)
    zebraMax := zebraLoop seq none 0 0 }

/-- Heuristic signal (source: the signals list entries): identifier, title,
description text and the trigger flag. -/
structure Signal where
  id : String
  title : String
  desc : String
  isOn : Bool
  deriving DecidableEq

/-- Signal evaluator (source: the signals useMemo): always emits the four
signals zebra, streaklong, bias and ties in this order; the recent-window
biases are the Red and Blue fractions of the window, taken to be zero when
the window is empty. Exact rational arithmetic stands in for the source's
floating-point division, which is exact on these small operands as far as
the 0.6 threshold comparison is concerned. -/
def deriveSignals (stats : Stats) : List Signal :=
  let total20 : Nat := stats.last20.R + stats.last20.B + stats.last20.T
  let redBias : ℚ := if 0 < total20 then (stats.last20.R : ℚ) / (total20 : ℚ) else 0
  let blueBias : ℚ := if 0 < total20 then (stats.last20.B : ℚ) / (total20 : ℚ) else 0
  [ { id := "zebra"
      title := "Zebra / Alternância"
      desc := "Maior alternância consecutiva observada: " ++ toString stats.zebraMax
      isOn := decide (5 ≤ stats.zebraMax) }
  , { id := "streaklong"
      title := "Sequência Longa"
      desc := "Maior streak: R=" ++ toString stats.longest.R ++ ", B=" ++
        toString stats.longest.B
      isOn := decide (5 ≤ stats.longest.R) || decide (5 ≤ stats.longest.B) }
  , { id := "bias"
      title := "Viés nas últimas 20"
      desc := "Últimos 20 → R=" ++ toString stats.last20.R ++ ", B=" ++
        toString stats.last20.B ++ ", T=" ++ toString stats.last20.T
      isOn := decide ((0.6 : ℚ) ≤ redBias) || decide ((0.6 : ℚ) ≤ blueBias) }
  , { id := "ties"
      title := "Ties frequentes"
      desc := "Últimos 20 tiveram " ++ toString stats.last20.T ++ " ties"
      isOn := decide (3 ≤ stats.last20.T) } ]

/-- Whitespace class of JavaScript regular expressions (the class used by
both the cleaning and the splitting regular expression in parseBulk). -/
def isJsWs (c : Char) : Bool :=
  c = ' ' || c = '\t' || c = '\n' || c.toNat = 11 || c.toNat = 12 ||
  c = '\r' || c.toNat = 0xA0 || c.toNat = 0x1680 ||
  (0x2000 ≤ c.toNat && c.toNat ≤ 0x200A) ||
  c.toNat = 0x2028 || c.toNat = 0x2029 || c.toNat = 0x202F ||
  c.toNat = 0x205F || c.toNat = 0x3000 || c.toNat = 0xFEFF

/-- Characters kept by the cleaning step of parseBulk (source: the negated
class of letters R B T E D L U I, whitespace, comma, semicolon, hyphen and
pipe); every other character is replaced by a space. -/
def keepChar (c : Char) : Bool :=
  c = 'R' || c = 'B' || c = 'T' || c = 'E' || c = 'D' || c = 'L' ||
  c = 'U' || c = 'I' || isJsWs c || c = ',' || c = ';' || c = '-' || c = '|'

/-- Characters on which parseBulk splits the cleaned text (source: the
split regular expression class, which holds whitespace, comma, semicolon
and the character range from backslash to pipe; a literal hyphen is not in
the class). -/
def splitChar (c : Char) : Bool :=
  isJsWs c || c = ',' || c = ';' || (0x5C ≤ c.toNat && c.toNat ≤ 0x7C)

/-- Maximal runs of non-separator characters, with empty chunks dropped
(the source splits and then filters out falsy tokens, which yields the
same token list). -/
def splitTokens : List Char → List Char → List (List Char)
  | [], acc => if acc = [] then [] else [acc.reverse]
  | c :: rest, acc =>
    if splitChar c then
      if acc = [] then splitTokens rest []
      else acc.reverse :: splitTokens rest []
    else splitTokens rest (c :: acc)

/-- Token recognizer of parseBulk (source: the includes checks on the
uppercased token). -/
def matchToken (t : List Char) : Option ColorKey :=
  if t = [] then none
  else if t = String.toList "R" ∨ t = String.toList "RED" then some ColorKey.R
  else if t = String.toList "B" ∨ t = String.toList "BLUE" then some ColorKey.B
  else if t = String.toList "T" ∨ t = String.toList "TIE" then some ColorKey.T
  else none

/-- Bulk text parser (source: parseBulk): uppercase, replace characters
outside the kept alphabet by spaces, split into tokens, map each token to
an outcome and drop unrecognized tokens. -/
def parseBulk (text : List Char) : List ColorKey :=
  let cleaned := (text.map Char.toUpper).map (fun c => if keepChar c then c else ' ')
  (splitTokens cleaned []).filterMap matchToken

/-- JSON value as produced by JSON.parse, with numbers restricted to the
integers (no claim depends on fractional numbers). -/
inductive JVal where
  | jnull
  | jbool (b : Bool)
  | jnum (n : Int)
  | jstr (s : String)
  | jarr (elems : List JVal)
  | jobj (fields : List (String × JVal))

/-- Property access: field lookup on an object, undefined (none) on every
other value. -/
def getField : JVal → String → Option JVal
  | JVal.jobj fields, name => List.lookup name fields
  | _, _ => none

/-- JavaScript truthiness of a parsed JSON value. -/
def truthy : JVal → Bool
  | JVal.jnull => false
  | JVal.jbool b => b
  | JVal.jnum n => n ≠ 0
  | JVal.jstr s => s ≠ ""
  | JVal.jarr _ => true
  | JVal.jobj _ => true

/-- Recognize one of the three tags as a strict string comparison (source:
the includes check against the array of R, B, T). -/
def tagStr : String → Option ColorKey
  | "R" => some ColorKey.R
  | "B" => some ColorKey.B
  | "T" => some ColorKey.T
  | _ => none

/-- Tag of a field value: only an exact string match counts (source: the
includes check, which uses strict equality). -/
def tagOf : Option JVal → Option ColorKey
  | some (JVal.jstr s) => tagStr s
  | _ => none

/-- History record as the import path builds it: the id and timestamp are
kept as raw JSON values because the source copies them through untyped. -/
structure JRec where
  id : JVal
  v : ColorKey
  ts : JVal

/-- Backfill of the id field (source: the expression r.id-or-uid, which
keeps a truthy id and otherwise draws a fresh one). -/
def backId (fresh : String) (r : JVal) : JVal :=
  match getField r "id" with
  | some j => if truthy j then j else JVal.jstr fresh
  | none => JVal.jstr fresh

/-- Backfill of the timestamp field (source: the expression r.ts-or-now). -/
def backTs (now : Int) (r : JVal) : JVal :=
  match getField r "ts" with
  | some j => if truthy j then j else JVal.jnum now
  | none => JVal.jnum now

/-- Record-array import path (source: the filter and map over a parsed
array in importJson): a record is kept when it is truthy and its v field
is a recognized tag; kept records get backfilled ids and timestamps. The
counter numbers the fresh-id draws in order. -/
def importRecords (fresh : Nat → String) (now : Int) : Nat → List JVal → List JRec
  | _, [] => []
  | i, r :: rest =>
    if truthy r then
      match tagOf (getField r "v") with
      | some c =>
        { id := backId (fresh i) r, v := c, ts := backTs now r } ::
          importRecords fresh now (i + 1) rest
      | none => importRecords fresh now i rest
    else importRecords fresh now i rest

/-- Results-array import path (source: the filter and map over the results
field in importJson): only exact tag strings are kept, each stamped with a
fresh id and the import time. -/
def importResults (fresh : Nat → String) (now : Int) : Nat → List JVal → List JRec
  | _, [] => []
  | i, v :: rest =>
    match v with
    | JVal.jstr s =>
      match tagStr s with
      | some c =>
        { id := JVal.jstr (fresh i), v := c, ts := JVal.jnum now } ::
          importResults fresh now (i + 1) rest
      | none => importResults fresh now i rest
    | _ => importResults fresh now i rest

/-- JSON import (source: importJson): an array is treated as a record
array; otherwise an object whose results field is an array is treated as a
tag list; any other shape alerts and leaves the history unchanged. The
boolean result records whether the failure alert fired. -/
def importJson (fresh : Nat → String) (now : Int) (parsed : JVal)
    (hist : List JRec) : List JRec × Bool :=
  match parsed with
  | JVal.jarr rs => (importRecords fresh now 0 rs, false)
  | _ =>
    match getField parsed "results" with
    | some (JVal.jarr vs) => (importResults fresh now 0 vs, false)
    | _ => (hist, true)

/-- Claim C1 counterexample: on the history R,R,R,B,B,T,R the engine counts
two alternations, not one — the Tie is skipped but the last non-Tie color
stays Blue, so the trailing Red counts as a second alternation. This
refutes the alternations part of the claim. -/
theorem claim1_counterexample :
    (computeStats
      [⟨"1", .R, 1⟩, ⟨"2", .R, 2⟩, ⟨"3", .R, 3⟩, ⟨"4", .B, 4⟩,
       ⟨"5", .B, 5⟩, ⟨"6", .T, 6⟩, ⟨"7", .R, 7⟩]).alternations = 2 ∧
    ¬ (computeStats
      [⟨"1", .R, 1⟩, ⟨"2", .R, 2⟩, ⟨"3", .R, 3⟩, ⟨"4", .B, 4⟩,
       ⟨"5", .B, 5⟩, ⟨"6", .T, 6⟩, ⟨"7", .R, 7⟩]).alternations = 1 := by
  decide

/-- Claim C1 (amended): for the concrete history R,R,R,B,B,T,R computeStats
returns longest streaks R=3, B=2, T=1, currentStreak = 1, currentColor =
Red, and alternations = 2 (the R-to-B transition and, because Ties are
skipped, the B-to-R transition across the Tie). -/
theorem claim1_amended :
    (computeStats
      [⟨"1", .R, 1⟩, ⟨"2", .R, 2⟩, ⟨"3", .R, 3⟩, ⟨"4", .B, 4⟩,
       ⟨"5", .B, 5⟩, ⟨"6", .T, 6⟩, ⟨"7", .R, 7⟩]).longest = ⟨3, 2, 1⟩ ∧
    (computeStats
      [⟨"1", .R, 1⟩, ⟨"2", .R, 2⟩, ⟨"3", .R, 3⟩, ⟨"4", .B, 4⟩,
       ⟨"5", .B, 5⟩, ⟨"6", .T, 6⟩, ⟨"7", .R, 7⟩]).currentStreak = 1 ∧
    (computeStats
      [⟨"1", .R, 1⟩, ⟨"2", .R, 2⟩, ⟨"3", .R, 3⟩, ⟨"4", .B, 4⟩,
       ⟨"5", .B, 5⟩, ⟨"6", .T, 6⟩, ⟨"7", .R, 7⟩]).currentColor = some .R ∧
    (computeStats
      [⟨"1", .R, 1⟩, ⟨"2", .R, 2⟩, ⟨"3", .R, 3⟩, ⟨"4", .B, 4⟩,
       ⟨"5", .B, 5⟩, ⟨"6", .T, 6⟩, ⟨"7", .R, 7⟩]).alternations = 2 := by
  decide

/-- Claim C3 evaluation at the failing input: the split regular expression
class of parseBulk contains the character range from backslash to pipe
rather than a literal hyphen, so a hyphen never separates tokens: the
string R-B parses to the empty list instead of Red then Blue, while the
separators really in the class (whitespace, comma, semicolon, pipe) do
split tokens. -/
theorem claim3_hyphen_not_separator :
    parseBulk (String.toList "R-B") = [] ∧
    parseBulk (String.toList "R,B") = [ColorKey.R, ColorKey.B] ∧
    parseBulk (String.toList "R B") = [ColorKey.R, ColorKey.B] ∧
    parseBulk (String.toList "R|B") = [ColorKey.R, ColorKey.B] ∧
    parseBulk (String.toList " R - B | T ") =
      [ColorKey.R, ColorKey.B, ColorKey.T] := by
  decide

/-- Claim C9: the token recognizer matches whole tokens only — any token
other than R, RED, B, BLUE, T, TIE yields no outcome — and therefore an
unseparated string of tags such as RB, RR or REDBLUE (in any letter case)
parses to the empty sequence. -/
theorem claim9_whole_tokens :
    (∀ t : List Char,
        t ∉ [String.toList "R", String.toList "RED", String.toList "B",
             String.toList "BLUE", String.toList "T", String.toList "TIE"] →
        matchToken t = none) ∧
    parseBulk (String.toList "RB") = [] ∧
    parseBulk (String.toList "RR") = [] ∧
    parseBulk (String.toList "REDBLUE") = [] ∧
    parseBulk (String.toList "redblue") = [] := by
  refine ⟨?_, by decide, by decide, by decide, by decide⟩
  intro t ht
  simp only [List.mem_cons, List.not_mem_nil, or_false, not_or] at ht
  obtain ⟨h1, h2, h3, h4, h5, h6⟩ := ht
  unfold matchToken
  split_ifs with e0 e1 e2 e3
  · rfl
  · rcases e1 with e | e <;> simp_all
  · rcases e2 with e | e <;> simp_all
  · rcases e3 with e | e <;> simp_all
  · rfl

/-- Claim C9 witness: the recognizer rejects the concrete token RB. -/
theorem claim9_witness : matchToken (String.toList "RB") = none :=
  claim9_whole_tokens.1 (String.toList "RB") (by decide)

/-- Equivalence between the rational bias threshold test of deriveSignals
and an integer formulation: the fraction a over t (zero when t is zero)
reaches six tenths exactly when t is positive and five a is at least
three t. -/
theorem bias_threshold (a t : Nat) :
    decide ((0.6 : ℚ) ≤ (if 0 < t then (a : ℚ) / (t : ℚ) else 0)) =
    decide (0 < t ∧ 3 * t ≤ 5 * a) := by
  rcases Nat.eq_zero_or_pos t with ht | ht
  · subst ht
    norm_num
  · have ht' : (0 : ℚ) < (t : ℚ) := by exact_mod_cast ht
    rw [if_pos ht]
    rw [decide_eq_decide]
    rw [show (0.6 : ℚ) = 3 / 5 by norm_num,
      div_le_div_iff₀ (by norm_num) ht']
    constructor
    · intro h
      have : (3 * t : ℚ) ≤ (5 * a : ℚ) := by linarith
      exact_mod_cast (and_iff_right ht).mpr (by exact_mod_cast this)
    · intro h
      have : (3 * t : ℚ) ≤ (5 * a : ℚ) := by exact_mod_cast h.2
      push_cast at this
      linarith

/-- Claim C2: the signal evaluator always emits exactly four signals, in
the fixed order zebra (alternation), streaklong (long streak), bias
(recent bias) and ties (frequent ties), all four present regardless of
trigger state, and the trigger flags are exactly: zebra maximum at least
five; longest Red or Blue streak at least five; recent-window Red or Blue
fraction at least six tenths, with both fractions zero when the window
total is zero (equivalently, the window is non-empty and five times the
count is at least three times the window total); at least three Ties in
the recent window. -/
theorem claim2_deriveSignals (s : Stats) :
    (deriveSignals s).length = 4 ∧
    (deriveSignals s).map Signal.id = ["zebra", "streaklong", "bias", "ties"] ∧
    (deriveSignals s).map Signal.isOn =
      [ decide (5 ≤ s.zebraMax)
      , decide (5 ≤ s.longest.R ∨ 5 ≤ s.longest.B)
      , decide (0 < s.last20.R + s.last20.B + s.last20.T ∧
          (3 * (s.last20.R + s.last20.B + s.last20.T) ≤ 5 * s.last20.R ∨
           3 * (s.last20.R + s.last20.B + s.last20.T) ≤ 5 * s.last20.B))
      , decide (3 ≤ s.last20.T) ] := by
  refine ⟨rfl, rfl, ?_⟩
  show [_, _, _, _] = [_, _, _, _]
  congr 1
  congr 1
  · show (decide (5 ≤ s.longest.R) || decide (5 ≤ s.longest.B)) = _
    by_cases h1 : 5 ≤ s.longest.R <;> by_cases h2 : 5 ≤ s.longest.B <;>
      simp [h1, h2]
  congr 1
  · rw [bias_threshold, bias_threshold]
    by_cases h0 : 0 < s.last20.R + s.last20.B + s.last20.T <;>
      by_cases h1 : 3 * (s.last20.R + s.last20.B + s.last20.T) ≤ 5 * s.last20.R <;>
      by_cases h2 : 3 * (s.last20.R + s.last20.B + s.last20.T) ≤ 5 * s.last20.B <;>
      simp [h0, h1, h2]

/-- Invariant of the current-streak scan once a color is fixed: the result
keeps that color, the streak never shrinks, grows by at most the number of
remaining values, and the consumed part of the list is a run of that
color. -/
theorem currentLoop_some (l : List ColorKey) :
    ∀ (j : Nat) (c : ColorKey),
      (currentLoop l j (some c)).2 = some c ∧
      j ≤ (currentLoop l j (some c)).1 ∧
      (currentLoop l j (some c)).1 ≤ j + l.length ∧
      ∃ ys, l = List.replicate ((currentLoop l j (some c)).1 - j) c ++ ys := by
  induction l with
  | nil =>
    intro j c
    exact ⟨rfl, le_refl _, by simp [currentLoop], ⟨[], by simp [currentLoop]⟩⟩
  | cons v rest ih =>
    intro j c
    rcases eq_or_ne v ColorKey.T with hT | hT
    · subst hT
      exact ⟨rfl, le_refl _, by simp [currentLoop], ⟨ColorKey.T :: rest, by simp [currentLoop]⟩⟩
    · by_cases hvc : v = c
      · subst hvc
        have hred : currentLoop (v :: rest) j (some v) = currentLoop rest (j + 1) (some v) := by
          simp [currentLoop, hT]
        obtain ⟨h1, h2, h3, ys, hys⟩ := ih (j + 1) v
        rw [hred]
        refine ⟨h1, by omega, by simpa [Nat.add_assoc, Nat.add_comm 1] using h3, ⟨ys, ?_⟩⟩
        have hk : (currentLoop rest (j + 1) (some v)).1 - j =
            ((currentLoop rest (j + 1) (some v)).1 - (j + 1)) + 1 := by omega
        rw [hk, List.replicate_succ, List.cons_append]
        exact congrArg (v :: ·) hys
      · have hred : currentLoop (v :: rest) j (some c) = (j, some c) := by
          simp [currentLoop, hT, hvc]
        rw [hred]
        exact ⟨rfl, le_refl _, by simp, ⟨v :: rest, by simp⟩⟩

/-- Behavior of the current-streak scan from the initial state: streak zero
exactly when no color was fixed, streak bounded by the list length, and a
fixed color means the list starts with a run of that color of the streak
length. -/
theorem currentLoop_start (l : List ColorKey) :
    ((currentLoop l 0 none).2 = none ↔ (currentLoop l 0 none).1 = 0) ∧
    (currentLoop l 0 none).1 ≤ l.length ∧
    (∀ c, (currentLoop l 0 none).2 = some c →
      1 ≤ (currentLoop l 0 none).1 ∧
      ∃ ys, l = List.replicate (currentLoop l 0 none).1 c ++ ys) := by
  cases l with
  | nil => simp [currentLoop]
  | cons v rest =>
    by_cases hT : v = ColorKey.T
    · subst hT
      simp [currentLoop]
    · have hred : currentLoop (v :: rest) 0 none = currentLoop rest 1 (some v) := by
        simp [currentLoop, hT]
      obtain ⟨h1, h2, h3, ys, hys⟩ := currentLoop_some rest 1 v
      rw [hred]
      refine ⟨?_, ?_, ?_⟩
      · rw [h1]
        constructor
        · intro hc; exact absurd hc (by simp)
        · intro hs; omega
      · simp only [List.length_cons]
        omega
      · intro c hc
        rw [h1] at hc
        have hcv : c = v := by
          injection hc with e; exact e.symm
        subst hcv
        refine ⟨h2, ⟨ys, ?_⟩⟩
        have hk : (currentLoop rest 1 (some c)).1 =
            ((currentLoop rest 1 (some c)).1 - 1) + 1 := by omega
        rw [hk, List.replicate_succ, List.cons_append]
        exact congrArg (c :: ·) hys

/-- Claim C5: for every history, the current streak lies between zero and
the total count, and the current color is undefined exactly when the
current streak is zero. -/
theorem claim5_currentStreak (h : List Result) :
    0 ≤ (computeStats h).currentStreak ∧
    (computeStats h).currentStreak ≤ (computeStats h).total ∧
    ((computeStats h).currentColor = none ↔ (computeStats h).currentStreak = 0) := by
  obtain ⟨hiff, hle, _⟩ := currentLoop_start ((h.map Result.v).reverse)
  refine ⟨Nat.zero_le _, ?_, ?_⟩
  · simp only [computeStats]
    simpa using hle
  · simp only [computeStats]
    exact hiff

/-- Reading back a value just written into the per-color counters. -/
theorem Counts.get_set (m : Counts) (c : ColorKey) (n : Nat) :
    (m.set c n).get c = n := by
  cases c <;> rfl

/-- Processing a run of one color while that color is the running color
accumulates the whole run into the flushed maximum. -/
theorem longestLoop_replicate (c : ColorKey) :
    ∀ (k rl : Nat) (m : Counts),
      rl + k ≤ (longestLoop (List.replicate k c) (some c) rl m).get c := by
  intro k
  induction k with
  | zero =>
    intro rl m
    simp only [List.replicate_zero, longestLoop, longestFlush, Counts.get_set]
    omega
  | succ k ih =>
    intro rl m
    rw [List.replicate_succ]
    have hred : longestLoop (c :: List.replicate k c) (some c) rl m =
        longestLoop (List.replicate k c) (some c) (rl + 1) m := by
      simp [longestLoop]
    rw [hred]
    have := ih (rl + 1) m
    omega

/-- A list ending in a run of k equal values yields a longest-streak entry
of at least k for that value, from any scan state. -/
theorem longestLoop_suffix_run (c : ColorKey) (k : Nat) (hk : 1 ≤ k) :
    ∀ (xs : List ColorKey) (rc : Option ColorKey) (rl : Nat) (m : Counts),
      k ≤ (longestLoop (xs ++ List.replicate k c) rc rl m).get c := by
  intro xs
  induction xs with
  | nil =>
    intro rc rl m
    simp only [List.nil_append]
    by_cases hrc : rc = some c
    · subst hrc
      have := longestLoop_replicate c k rl m
      omega
    · obtain ⟨k', rfl⟩ : ∃ k', k = k' + 1 := ⟨k - 1, by omega⟩
      rw [List.replicate_succ]
      have hred : longestLoop (c :: List.replicate k' c) rc rl m =
          longestLoop (List.replicate k' c) (some c) 1 (longestFlush m rc rl) := by
        rw [longestLoop, if_neg hrc]
      rw [hred]
      have := longestLoop_replicate c k' 1 (longestFlush m rc rl)
      omega
  | cons x xs ih =>
    intro rc rl m
    rw [List.cons_append]
    by_cases hx : rc = some x
    · have hred : longestLoop (x :: (xs ++ List.replicate k c)) rc rl m =
          longestLoop (xs ++ List.replicate k c) rc (rl + 1) m := by
        rw [longestLoop, if_pos hx]
      rw [hred]
      exact ih rc (rl + 1) m
    · have hred : longestLoop (x :: (xs ++ List.replicate k c)) rc rl m =
          longestLoop (xs ++ List.replicate k c) (some x) 1 (longestFlush m rc rl) := by
        rw [longestLoop, if_neg hx]
      rw [hred]
      exact ih (some x) 1 (longestFlush m rc rl)

/-- Claim C6: whenever the current color is defined, the longest streak
recorded for that color is at least the current streak. -/
theorem claim6_longest_ge_current (h : List Result) (c : ColorKey)
    (hc : (computeStats h).currentColor = some c) :
    (computeStats h).currentStreak ≤ (computeStats h).longest.get c := by
  simp only [computeStats] at hc ⊢
  obtain ⟨-, -, hrun⟩ := currentLoop_start (h.map Result.v).reverse
  obtain ⟨h1, ys, hys⟩ := hrun c hc
  have hlrev : h.map Result.v =
      ys.reverse ++
        List.replicate (currentLoop (h.map Result.v).reverse 0 none).1 c := by
    have h2 := congrArg List.reverse hys
    simpa [List.reverse_append, List.reverse_replicate] using h2
  calc (currentLoop (h.map Result.v).reverse 0 none).1
      ≤ (longestLoop
          (ys.reverse ++
            List.replicate (currentLoop (h.map Result.v).reverse 0 none).1 c)
          none 0 ⟨0, 0, 0⟩).get c :=
        longestLoop_suffix_run c _ h1 ys.reverse none 0 ⟨0, 0, 0⟩
    _ = (longestLoop (h.map Result.v) none 0 ⟨0, 0, 0⟩).get c := by rw [← hlrev]

/-- Claim C6 witness: on a one-element Red history the current color is Red
and the longest Red streak dominates the current streak. -/
theorem claim6_witness :
    (computeStats [⟨"w6", ColorKey.R, 0⟩]).currentColor = some ColorKey.R ∧
    (computeStats [⟨"w6", ColorKey.R, 0⟩]).currentStreak ≤
      (computeStats [⟨"w6", ColorKey.R, 0⟩]).longest.get ColorKey.R :=
  ⟨by decide, claim6_longest_ge_current [⟨"w6", ColorKey.R, 0⟩] ColorKey.R (by decide)⟩

/-- Ties are transparent to the alternation scan: filtering them out of the
input leaves the result unchanged, from any scan state. -/
theorem altLoop_filter (l : List ColorKey) :
    ∀ (lastColor : Option ColorKey) (alt : Nat),
      altLoop l lastColor alt =
        altLoop (l.filter (fun v => v ≠ ColorKey.T)) lastColor alt := by
  induction l with
  | nil => intro lastColor alt; rfl
  | cons v rest ih =>
    intro lastColor alt
    by_cases hT : v = ColorKey.T
    · subst hT
      have h1 : altLoop (ColorKey.T :: rest) lastColor alt =
          altLoop rest lastColor alt := by
        simp [altLoop]
      have h2 : (ColorKey.T :: rest).filter (fun w => w ≠ ColorKey.T) =
          rest.filter (fun w => w ≠ ColorKey.T) := by simp
      rw [h1, h2]
      exact ih lastColor alt
    · have h2 : (v :: rest).filter (fun w => w ≠ ColorKey.T) =
          v :: rest.filter (fun w => w ≠ ColorKey.T) := by simp [hT]
      rw [h2]
      cases lastColor with
      | none =>
        have h1 : ∀ r, altLoop (v :: r) none alt = altLoop r (some v) alt := by
          intro r; simp [altLoop, hT]
        rw [h1, h1]
        exact ih (some v) alt
      | some c =>
        by_cases hvc : v = c
        · subst hvc
          have h1 : ∀ r, altLoop (v :: r) (some v) alt = altLoop r (some v) alt := by
            intro r; simp [altLoop, hT]
          rw [h1, h1]
          exact ih (some v) alt
        · have h1 : ∀ r, altLoop (v :: r) (some c) alt =
              altLoop r (some v) (alt + 1) := by
            intro r; simp [altLoop, hT, hvc]
          rw [h1, h1]
          exact ih (some v) (alt + 1)

/-- Claim C7: two histories with the same subsequence of non-Tie values
have the same alternation count — alternations are invariant under
inserting or removing Ties anywhere. -/
theorem claim7_tie_invariance (h1 h2 : List Result)
    (hsame : (h1.map Result.v).filter (fun v => v ≠ ColorKey.T) =
             (h2.map Result.v).filter (fun v => v ≠ ColorKey.T)) :
    (computeStats h1).alternations = (computeStats h2).alternations := by
  simp only [computeStats]
  rw [altLoop_filter (h1.map Result.v) none 0,
    altLoop_filter (h2.map Result.v) none 0, hsame]

/-- Claim C7 witness: inserting a Tie between Red and Blue leaves the
alternation count unchanged. -/
theorem claim7_witness :
    (computeStats [⟨"a", ColorKey.R, 0⟩, ⟨"b", ColorKey.B, 1⟩]).alternations =
    (computeStats [⟨"c", ColorKey.R, 0⟩, ⟨"d", ColorKey.T, 1⟩,
                   ⟨"e", ColorKey.B, 2⟩]).alternations :=
  claim7_tie_invariance
    [⟨"a", ColorKey.R, 0⟩, ⟨"b", ColorKey.B, 1⟩]
    [⟨"c", ColorKey.R, 0⟩, ⟨"d", ColorKey.T, 1⟩, ⟨"e", ColorKey.B, 2⟩]
    (by decide)

/-- The zebra scan result is bounded by the carried maximum plus the
current run length plus the number of remaining values. -/
theorem zebraLoop_le (l : List ColorKey) :
    ∀ (lastColor : Option ColorKey) (zebraCur zebraMax : Nat),
      zebraLoop l lastColor zebraCur zebraMax ≤
        max zebraMax (zebraCur + l.length) := by
  induction l with
  | nil =>
    intro lastColor zebraCur zebraMax
    simp [zebraLoop]
  | cons v rest ih =>
    intro lastColor zebraCur zebraMax
    by_cases hT : v = ColorKey.T
    · subst hT
      have h1 : zebraLoop (ColorKey.T :: rest) lastColor zebraCur zebraMax =
          zebraLoop rest none 0 (max zebraMax zebraCur) := by
        simp [zebraLoop]
      rw [h1]
      have := ih none 0 (max zebraMax zebraCur)
      simp only [List.length_cons]
      omega
    · cases lastColor with
      | none =>
        have h1 : zebraLoop (v :: rest) none zebraCur zebraMax =
            zebraLoop rest (some v) 1 (max zebraMax 1) := by
          simp [zebraLoop, hT]
        rw [h1]
        have := ih (some v) 1 (max zebraMax 1)
        simp only [List.length_cons]
        omega
      | some c =>
        by_cases hvc : v = c
        · subst hvc
          have h1 : zebraLoop (v :: rest) (some v) zebraCur zebraMax =
              zebraLoop rest (some v) 1 (max zebraMax 1) := by
            simp [zebraLoop, hT]
          rw [h1]
          have := ih (some v) 1 (max zebraMax 1)
          simp only [List.length_cons]
          omega
        · have h1 : zebraLoop (v :: rest) (some c) zebraCur zebraMax =
              zebraLoop rest (some v) (zebraCur + 1)
                (max zebraMax (zebraCur + 1)) := by
            simp [zebraLoop, hT, hvc]
          rw [h1]
          have := ih (some v) (zebraCur + 1) (max zebraMax (zebraCur + 1))
          simp only [List.length_cons]
          omega

/-- On a list made of Ties only, the zebra scan never grows its maximum
beyond a carried maximum that dominates the carried current run. -/
theorem zebraLoop_all_ties (l : List ColorKey) (hl : ∀ v ∈ l, v = ColorKey.T) :
    ∀ zebraMax : Nat, zebraLoop l none 0 zebraMax = zebraMax := by
  induction l with
  | nil => intro zebraMax; rfl
  | cons v rest ih =>
    intro zebraMax
    have hv : v = ColorKey.T := hl v (List.mem_cons_self v rest)
    subst hv
    have h1 : zebraLoop (ColorKey.T :: rest) none 0 zebraMax =
        zebraLoop rest none 0 (max zebraMax 0) := by
      simp [zebraLoop]
    rw [h1, Nat.max_zero]
    exact ih (fun w hw => hl w (List.mem_cons_of_mem _ hw)) zebraMax

/-- The zebra scan maximum never decreases. -/
theorem zebraLoop_ge (l : List ColorKey) :
    ∀ (lastColor : Option ColorKey) (zebraCur zebraMax : Nat),
      zebraMax ≤ zebraLoop l lastColor zebraCur zebraMax := by
  induction l with
  | nil =>
    intro lastColor zebraCur zebraMax
    simp [zebraLoop]
  | cons v rest ih =>
    intro lastColor zebraCur zebraMax
    by_cases hT : v = ColorKey.T
    · subst hT
      have h1 : zebraLoop (ColorKey.T :: rest) lastColor zebraCur zebraMax =
          zebraLoop rest none 0 (max zebraMax zebraCur) := by
        simp [zebraLoop]
      rw [h1]
      have := ih none 0 (max zebraMax zebraCur)
      omega
    · cases lastColor with
      | none =>
        have h1 : zebraLoop (v :: rest) none zebraCur zebraMax =
            zebraLoop rest (some v) 1 (max zebraMax 1) := by
          simp [zebraLoop, hT]
        rw [h1]
        have := ih (some v) 1 (max zebraMax 1)
        omega
      | some c =>
        by_cases hvc : v = c
        · subst hvc
          have h1 : zebraLoop (v :: rest) (some v) zebraCur zebraMax =
              zebraLoop rest (some v) 1 (max zebraMax 1) := by
            simp [zebraLoop, hT]
          rw [h1]
          have := ih (some v) 1 (max zebraMax 1)
          omega
        · have h1 : zebraLoop (v :: rest) (some c) zebraCur zebraMax =
              zebraLoop rest (some v) (zebraCur + 1)
                (max zebraMax (zebraCur + 1)) := by
            simp [zebraLoop, hT, hvc]
          rw [h1]
          have := ih (some v) (zebraCur + 1) (max zebraMax (zebraCur + 1))
          omega

/-- A list containing a non-Tie value drives the zebra scan maximum to at
least one. -/
theorem zebraLoop_pos (l : List ColorKey) :
    ∀ (lastColor : Option ColorKey) (zebraCur zebraMax : Nat),
      (∃ v ∈ l, v ≠ ColorKey.T) →
      1 ≤ zebraLoop l lastColor zebraCur zebraMax := by
  induction l with
  | nil =>
    intro lastColor zebraCur zebraMax hex
    obtain ⟨v, hv, -⟩ := hex
    exact absurd hv (List.not_mem_nil v)
  | cons v rest ih =>
    intro lastColor zebraCur zebraMax hex
    by_cases hT : v = ColorKey.T
    · subst hT
      have h1 : zebraLoop (ColorKey.T :: rest) lastColor zebraCur zebraMax =
          zebraLoop rest none 0 (max zebraMax zebraCur) := by
        simp [zebraLoop]
      rw [h1]
      obtain ⟨w, hw, hwT⟩ := hex
      rcases List.mem_cons.mp hw with hwv | hwrest
      · exact absurd hwv.symm (Ne.symm hwT)
      · exact ih none 0 (max zebraMax zebraCur) ⟨w, hwrest, hwT⟩
    · cases lastColor with
      | none =>
        have h1 : zebraLoop (v :: rest) none zebraCur zebraMax =
            zebraLoop rest (some v) 1 (max zebraMax 1) := by
          simp [zebraLoop, hT]
        rw [h1]
        have := zebraLoop_ge rest (some v) 1 (max zebraMax 1)
        omega
      | some c =>
        by_cases hvc : v = c
        · subst hvc
          have h1 : zebraLoop (v :: rest) (some v) zebraCur zebraMax =
              zebraLoop rest (some v) 1 (max zebraMax 1) := by
            simp [zebraLoop, hT]
          rw [h1]
          have := zebraLoop_ge rest (some v) 1 (max zebraMax 1)
          omega
        · have h1 : zebraLoop (v :: rest) (some c) zebraCur zebraMax =
              zebraLoop rest (some v) (zebraCur + 1)
                (max zebraMax (zebraCur + 1)) := by
            simp [zebraLoop, hT, hvc]
          rw [h1]
          have := zebraLoop_ge rest (some v) (zebraCur + 1)
            (max zebraMax (zebraCur + 1))
          omega

/-- Claim C4 counterexample: the two-element history R,R has fewer than two
consecutive non-Tie outcomes without an intervening repeat (its only
adjacent pair is a repeat), yet its zebra maximum is one, not zero. -/
theorem claim4_counterexample :
    (computeStats [⟨"x", ColorKey.R, 0⟩, ⟨"y", ColorKey.R, 1⟩]).zebraMax = 1 ∧
    ¬ (computeStats [⟨"x", ColorKey.R, 0⟩, ⟨"y", ColorKey.R, 1⟩]).zebraMax = 0 := by
  decide

/-- Claim C4 (amended): for every history the zebra maximum is at most the
total, it is zero whenever the history has no non-Tie outcome, and any
non-Tie outcome already forces it to be at least one. -/
theorem claim4_amended (h : List Result) :
    (computeStats h).zebraMax ≤ (computeStats h).total ∧
    ((∀ r ∈ h, r.v = ColorKey.T) → (computeStats h).zebraMax = 0) ∧
    ((∃ r ∈ h, r.v ≠ ColorKey.T) → 1 ≤ (computeStats h).zebraMax) := by
  simp only [computeStats]
  refine ⟨?_, ?_, ?_⟩
  · have := zebraLoop_le (h.map Result.v) none 0 0
    simpa using this
  · intro hall
    apply zebraLoop_all_ties
    intro v hv
    obtain ⟨r, hr, rfl⟩ := List.mem_map.mp hv
    exact hall r hr
  · intro hex
    obtain ⟨r, hr, hrT⟩ := hex
    exact zebraLoop_pos (h.map Result.v) none 0 0
      ⟨r.v, List.mem_map.mpr ⟨r, hr, rfl⟩, hrT⟩

/-- Claim C4 witness: a history of two Ties has zebra maximum zero, and one
Red outcome forces zebra maximum at least one. -/
theorem claim4_witness :
    (computeStats [⟨"t1", ColorKey.T, 0⟩, ⟨"t2", ColorKey.T, 1⟩]).zebraMax = 0 ∧
    1 ≤ (computeStats [⟨"r1", ColorKey.R, 0⟩]).zebraMax :=
  ⟨(claim4_amended [⟨"t1", ColorKey.T, 0⟩, ⟨"t2", ColorKey.T, 1⟩]).2.1 (by decide),
   (claim4_amended [⟨"r1", ColorKey.R, 0⟩]).2.2 (by decide)⟩

/-- Claim C10: the statistics engine depends only on the ordered sequence
of outcome values — two histories whose value sequences agree element-wise
produce identical snapshots, whatever their ids and timestamps; being a
function, computeStats is deterministic. -/
theorem claim10_values_only (h1 h2 : List Result)
    (hmap : h1.map Result.v = h2.map Result.v) :
    computeStats h1 = computeStats h2 := by
  have hlen : h1.length = h2.length := by
    have := congrArg List.length hmap
    simpa using this
  simp only [computeStats]
  rw [List.map_drop, List.map_drop, hmap, hlen]

/-- Claim C10 witness: two histories with the same values but different ids
and timestamps yield the same snapshot. -/
theorem claim10_witness :
    computeStats [⟨"a", ColorKey.R, 1⟩, ⟨"b", ColorKey.B, 2⟩] =
    computeStats [⟨"zz", ColorKey.R, 77⟩, ⟨"qq", ColorKey.B, 93⟩] :=
  claim10_values_only
    [⟨"a", ColorKey.R, 1⟩, ⟨"b", ColorKey.B, 2⟩]
    [⟨"zz", ColorKey.R, 77⟩, ⟨"qq", ColorKey.B, 93⟩]
    (by decide)

/-- A record that is not truthy is not an object, so it has no fields. -/
theorem getField_of_not_truthy (r : JVal) (s : String) (h : truthy r = false) :
    getField r s = none := by
  cases r <;> first | rfl | simp [truthy] at h

/-- Claim-side view of record acceptance: a record is kept exactly when its
value field carries one of the three recognized tags, and the kept record
is remembered together with that tag. -/
def keptTag (r : JVal) : Option (JVal × ColorKey) :=
  match tagOf (getField r "v") with
  | some c => some (r, c)
  | none => none

/-- Claim-side view of a kept record after import: the recognized tag is
kept, the id and timestamp are backfilled (fresh id, import-time
timestamp) when missing. -/
def backfillKept (fresh : Nat → String) (now : Int)
    (p : Nat × (JVal × ColorKey)) : JRec :=
  { id := backId (fresh p.1) p.2.1, v := p.2.2, ts := backTs now p.2.1 }

/-- The source's record-import loop equals the claim-side description:
filter the records with a recognized tag, then backfill each kept record,
numbering the fresh-id draws from the starting index. -/
theorem importRecords_eq (fresh : Nat → String) (now : Int) :
    ∀ (rs : List JVal) (i : Nat),
      importRecords fresh now i rs =
        ((rs.filterMap keptTag).enumFrom i).map (backfillKept fresh now) := by
  intro rs
  induction rs with
  | nil => intro i; rfl
  | cons r rest ih =>
    intro i
    by_cases htr : truthy r
    · rcases htag : tagOf (getField r "v") with - | c
      · have hl : importRecords fresh now i (r :: rest) =
            importRecords fresh now i rest := by
          simp [importRecords, htr, htag]
        have hk : keptTag r = none := by simp [keptTag, htag]
        rw [hl, List.filterMap_cons, hk]
        exact ih i
      · have hl : importRecords fresh now i (r :: rest) =
            { id := backId (fresh i) r, v := c, ts := backTs now r } ::
              importRecords fresh now (i + 1) rest := by
          simp [importRecords, htr, htag]
        have hk : keptTag r = some (r, c) := by simp [keptTag, htag]
        rw [hl, List.filterMap_cons, hk]
        rw [List.enumFrom_cons, List.map_cons]
        rw [ih (i + 1)]
        rfl
    · have htr' : truthy r = false := by
        cases hb : truthy r
        · rfl
        · exact absurd hb htr
      have hl : importRecords fresh now i (r :: rest) =
          importRecords fresh now i rest := by
        simp [importRecords, htr']
      have hk : keptTag r = none := by
        simp [keptTag, tagOf, getField_of_not_truthy r "v" htr']
      rw [hl, List.filterMap_cons, hk]
      exact ih i

/-- Claim C8: a payload that is neither a record array nor an object with a
results array is a hard failure that leaves the history unchanged and
raises the alert; a record array is accepted without alert, every record
whose value is not one of the three recognized tags is dropped, and each
kept record is imported with its tag and with missing id and timestamp
backfilled by a fresh id and the import time. -/
theorem claim8_import (fresh : Nat → String) (now : Int) (hist : List JRec) :
    (∀ parsed : JVal,
      (∀ rs, parsed ≠ JVal.jarr rs) →
      (∀ vs, getField parsed "results" ≠ some (JVal.jarr vs)) →
      importJson fresh now parsed hist = (hist, true)) ∧
    (∀ rs : List JVal,
      importJson fresh now (JVal.jarr rs) hist =
        (((rs.filterMap keptTag).enumFrom 0).map (backfillKept fresh now),
          false)) := by
  constructor
  · intro parsed hnotarr hnotres
    cases parsed with
    | jarr rs => exact absurd rfl (hnotarr rs)
    | jnull => rfl
    | jbool b => rfl
    | jnum n => rfl
    | jstr s => rfl
    | jobj fields =>
      rcases hres : getField (JVal.jobj fields) "results" with - | j
      · simp [importJson, hres]
      · cases j with
        | jarr vs => exact absurd hres (hnotres vs)
        | jnull => simp [importJson, hres]
        | jbool b => simp [importJson, hres]
        | jnum n => simp [importJson, hres]
        | jstr s => simp [importJson, hres]
        | jobj f2 => simp [importJson, hres]
  · intro rs
    show (importRecords fresh now 0 rs, false) = _
    rw [importRecords_eq fresh now rs 0]

/-- Claim C8 witness: a string payload is rejected without touching the
history, applying the shape-failure part of the import theorem at a
concrete input. -/
theorem claim8_witness :
    importJson (fun n => toString n) 5 (JVal.jstr "bad")
        [⟨JVal.jstr "k", ColorKey.R, JVal.jnum 1⟩] =
      ([⟨JVal.jstr "k", ColorKey.R, JVal.jnum 1⟩], true) :=
  (claim8_import (fun n => toString n) 5
      [⟨JVal.jstr "k", ColorKey.R, JVal.jnum 1⟩]).1
    (JVal.jstr "bad")
    (fun _rs h => JVal.noConfusion h)
    (fun _vs h => Option.noConfusion h)

/-- Sanity scenario from the specification: the history R,B,R,B,R has a
zebra maximum of five and four alternations. -/
theorem scenario_zebra_five :
    (computeStats
      [⟨"1", .R, 1⟩, ⟨"2", .B, 2⟩, ⟨"3", .R, 3⟩, ⟨"4", .B, 4⟩,
       ⟨"5", .R, 5⟩]).zebraMax = 5 ∧
    (computeStats
      [⟨"1", .R, 1⟩, ⟨"2", .B, 2⟩, ⟨"3", .R, 3⟩, ⟨"4", .B, 4⟩,
       ⟨"5", .R, 5⟩]).alternations = 4 := by
  decide

/-- Sanity scenario from the specification: unrecognized tokens are
silently dropped by the bulk parser. -/
theorem scenario_parse_drop_noise :
    parseBulk (String.toList "R B X R T") =
      [ColorKey.R, ColorKey.B, ColorKey.R, ColorKey.T] ∧
    parseBulk (String.toList "R,B,T") = [ColorKey.R, ColorKey.B, ColorKey.T] ∧
    parseBulk (String.toList "r b t") = [ColorKey.R, ColorKey.B, ColorKey.T] := by
  decide
